import Mathlib

/-!
Verification development for the configuration-resolution pipeline and the
git version-source provider of the kraft package manager.

The definitions below are a shallow embedding of the Python sources
`kraft/config/config.py` and `kraft/lib/provider/git.py`.  Python strings
are Lean `String`s and all character-level operations are implemented by
structural recursion over `List Char` so that every definition evaluates by
kernel reduction.  Python dictionaries are association lists that keep
Python's insertion-order/overwrite semantics.  Fallible operations return
`Except`.  Parts of the repository that are referenced but whose sources
are not available (constants from `kraft/const.py`, the schema validators
of `kraft/config/validation.py`, the interpolation engine of
`kraft/config/interpolation.py`) are modelled from the specification and
are marked as such in their doc comments.
-/

/-! ## String utilities (structural recursion, mirroring Python `str` ops) -/

/-- Splitting a character list at every occurrence of a separator, keeping
empty segments; mirrors Python `str.split(sep)` with an explicit separator.
The accumulator holds the current segment in reverse. -/
def splitOnCharAux (sep : Char) : List Char → List Char → List (List Char)
  | [], acc => [acc.reverse]
  | c :: rest, acc =>
    if c = sep then acc.reverse :: splitOnCharAux sep rest []
    else splitOnCharAux sep rest (c :: acc)

/-- Python `s.split(sep)` for a one-character separator. -/
def splitOnChar (sep : Char) (l : List Char) : List (List Char) :=
  splitOnCharAux sep l []

/-- Python `s.split(sep)` returning Lean strings. -/
def pySplit (sep : Char) (s : String) : List String :=
  (splitOnChar sep s.toList).map (fun l => String.mk l)

/-- Python `s.startswith(p)`. -/
def pyStartswith (s p : String) : Bool :=
  p.toList.isPrefixOf s.toList

/-- Python `s[n:]`. -/
def pyDrop (n : Nat) (s : String) : String :=
  String.mk (s.toList.drop n)

/-- ASCII decimal digit test. -/
def isDigitChar (c : Char) : Bool :=
  decide (48 ≤ c.toNat) && decide (c.toNat ≤ 57)

/-- A non-empty all-digit character list (one-or-more digits). -/
def digits1 (l : List Char) : Bool :=
  !l.isEmpty && l.all isDigitChar

/-- ASCII lower-casing of one character; mirrors Python `str.lower` on the
ASCII inputs relevant here. -/
def lowerChar (c : Char) : Char :=
  if 65 ≤ c.toNat ∧ c.toNat ≤ 90 then Char.ofNat (c.toNat + 32) else c

/-! ## Git version-source provider (`kraft/lib/provider/git.py`) -/

/-- Error raised by the underlying git command library; its payload is
irrelevant to the control flow being verified. -/
inductive GitCommandError
  | err (msg : String)
  deriving DecidableEq

/-- A Python runtime error escaping `git_probe_remote_versions`:
`indexErr` models the `IndexError` of an out-of-range list subscript. -/
inductive PyErr
  | indexErr
  deriving DecidableEq

/-- The version mapping returned by probing: a Python `dict` from version
string to content id, as an insertion-ordered association list. -/
abbrev VMap : Type := List (String × String)

/-- Python `dict` key assignment `d[k] = v`: replace in place when the key
is present, append otherwise. -/
def updateVersions (m : VMap) (k v : String) : VMap :=
  if m.any (fun p => p.1 == k) then
    m.map (fun p => if p.1 == k then (k, v) else p)
  else
    m ++ [(k, v)]

/-- Python `dict` lookup (first entry with the key; keys built via
`updateVersions` stay unique). -/
def lookupVM (k : String) : VMap → Option String
  | [] => none
  | kv :: t => if kv.1 = k then some kv.2 else lookupVM k t

/-- Modelled from the spec: `GIT_BRANCH_PATTERN` from the missing
`kraft/const.py` — matches a branch reference path and captures the branch
name, i.e. `refs/heads/<name>` with capture `<name>`. -/
def GIT_BRANCH_PATTERN (refPath : String) : Option String :=
  if pyStartswith refPath "refs/heads/" then some (pyDrop 11 refPath) else none

/-- Modelled from the spec: the generic `GIT_TAG_PATTERN` from the missing
`kraft/const.py` — matches a tag reference path and captures the tag name,
i.e. `refs/tags/<name>` with capture `<name>`. -/
def GIT_TAG_PATTERN (refPath : String) : Option String :=
  if pyStartswith refPath "refs/tags/" then some (pyDrop 10 refPath) else none

/-- Modelled from the spec: `VSEMVER_PATTERN` from the missing
`kraft/const.py` — a v-prefixed semantic version such as `v1.2.3`: the
letter `v` followed by three dot-separated runs of digits. -/
def isVSemver (s : String) : Bool :=
  match s.toList with
  | [] => false
  | c0 :: rest =>
    c0 == 'v' &&
      match splitOnChar '.' rest with
      | [a, b, c] => digits1 a && digits1 b && digits1 c
      | _ => false

/-- The normalization applied to every matched version string in
`git_probe_remote_versions`: strip the leading character when the string is
a v-prefixed semantic version (`ver = ver[1:]`). -/
def vnorm (v : String) : String :=
  if isVSemver v then pyDrop 1 v else v

/-- Classification of one reference path, exactly as in the body of the
loop of `git_probe_remote_versions`: the branch pattern is tried first and
its capture (v-normalized) wins; only when it fails is a tag pattern tried —
the framework-specific pattern `utag` when `isUK` (the source starts with
the Unikraft origin), the generic tag pattern otherwise. The
framework-specific tag pattern `GIT_UNIKRAFT_TAG_PATTERN` lives in the
missing `kraft/const.py`, so it is kept abstract as the argument `utag`. -/
def classifyRef (isUK : Bool) (utag : String → Option String) (refPath : String) :
    Option String :=
  match GIT_BRANCH_PATTERN refPath with
  | some br => some (vnorm br)
  | none =>
    match (if isUK then utag refPath else GIT_TAG_PATTERN refPath) with
    | some t => some (vnorm t)
    | none => none

/-- The contribution of one listing line: the line is split at tabs
(`refs.split('\t')`); a line whose split is empty or whose first field is
the empty string is skipped (`continue`); otherwise the second field is
subscripted (`hash_ref_list[1]`), which raises `IndexError` when the line
has no tab; a classified reference contributes `(version, contentId)`. -/
def lineContrib (isUK : Bool) (utag : String → Option String) (line : String) :
    Except PyErr (Option (String × String)) :=
  match pySplit '\t' line with
  | [] => .ok none
  | first :: rest =>
    if first.isEmpty then .ok none
    else
      match rest with
      | [] => .error .indexErr
      | refPath :: _ =>
        .ok ((classifyRef isUK utag refPath).map (fun v => (v, first)))

/-- The loop of `git_probe_remote_versions` over the lines of the listing,
inserting contributions into the dictionary in listing order with plain key
assignment. -/
def processLines (isUK : Bool) (utag : String → Option String) :
    List String → VMap → Except PyErr VMap
  | [], m => .ok m
  | line :: rest, m =>
    match lineContrib isUK utag line with
    | .error e => .error e
    | .ok none => processLines isUK utag rest m
    | .ok (some (v, c)) => processLines isUK utag rest (updateVersions m v c)

/-- Stripping a literal `file://` scheme prefix, as done at the top of
`git_probe_remote_versions` and of `GitLibraryProvider.is_type`. -/
def stripFileScheme (s : String) : String :=
  if pyStartswith s "file://" then pyDrop 7 s else s

/-- Whether the (stripped) source is the framework's canonical origin:
`source.startswith(UNIKRAFT_ORIGIN)`. `UNIKRAFT_ORIGIN` lives in the
missing `kraft/const.py`, so the origin string is a parameter. -/
def ukFlag (origin src : String) : Bool :=
  pyStartswith src origin

/-- Shallow embedding of `git_probe_remote_versions`.  The network is an
explicit input: `lsRemote` is the outcome of `GitCmd().ls_remote(source)`
(the source calls it twice on the same source; a deterministic remote is
assumed, so one outcome value suffices).  A `GitCommandError` outcome is
caught and yields the empty mapping; a successful listing is split at
newlines and folded through `processLines`. -/
def git_probe_remote_versions (origin : String) (utag : String → Option String)
    (lsRemote : Except GitCommandError String) (source : Option String) :
    Except PyErr VMap :=
  match source with
  | none => .ok []
  | some src =>
    let src := stripFileScheme src
    match lsRemote with
    | .error _ => .ok []
    | .ok listing =>
      processLines (ukFlag origin src) utag (pySplit '\n' listing) []

/-! ### The capability probe `GitLibraryProvider.is_type` -/

/-- Exceptions of the git backend relevant to `is_type`; both are caught. -/
inductive GitExn
  | invalidRepository
  | commandError
  deriving DecidableEq

/-- Path components of a source string (split at `/`). -/
def pathComponents (p : String) : List String :=
  pySplit '/' p

/-- The state of the git backend seen by `is_type`: which directories are
roots of valid working trees, and what a remote listing of a source
returns.  This models the external git library (GitPython), which is not
part of the repository. -/
structure GitBackend where
  repoRoots : List (List String)
  lsRemote : String → Except GitExn String

/-- Modelled from the spec: `GitRepo(path, search_parent_directories=True)`
of the external git library succeeds exactly when the path lies inside a
valid working tree, i.e. when some known work-tree root is a path-component
prefix of the path (the ancestor search of §4.6(a)). -/
def gitRepoOpen (b : GitBackend) (path : String) : Except GitExn Unit :=
  if b.repoRoots.any (fun r => r.isPrefixOf (pathComponents path)) then .ok ()
  else .error .invalidRepository

/-- Shallow embedding of `GitLibraryProvider.is_type`: `None` is rejected;
otherwise the `file://` prefix is stripped, the local working-tree probe is
tried with all exceptions caught, then the remote-listing probe is tried
with all exceptions caught, and `False` is returned only when both fail.
The two `except` blocks of the source are the two `match`es on the probe
outcomes; the function is total, so capability probing never throws. -/
def is_type (b : GitBackend) (source : Option String) : Bool :=
  match source with
  | none => false
  | some s =>
    let s := stripFileScheme s
    match gitRepoOpen b s with
    | .ok _ => true
    | .error _ =>
      match b.lsRemote s with
      | .ok _ => true
      | .error _ => false

/-! ## Configuration pipeline (`kraft/config/config.py`) -/

/-- A component description: the value dictionary attached to one named
component inside a section (string keys to string values; the internal
shape of descriptions is irrelevant to the merge logic being verified). -/
abbrev Desc : Type := List (String × String)

/-- A component section mapping component names to descriptions, as an
insertion-ordered association list (a Python `dict`). -/
abbrev CompMap : Type := List (String × Desc)

/-- The parsed top-level content of a manifest file: each recognised
top-level key is present or absent. The `specification` field holds the
`str()` form of the declared value. -/
structure RawConfig where
  specification : Option String
  name : Option String
  unikraft : Option CompMap
  architectures : Option CompMap
  platforms : Option CompMap
  libraries : Option CompMap
  run : Option CompMap
  deriving DecidableEq

/-- An empty parsed document (a manifest file with none of the recognised
keys). -/
def RawConfig.empty : RawConfig :=
  RawConfig.mk none none none none none none none

/-- `KraftFile`: one manifest file; `config = none` models a file whose
YAML parses to `None` (empty document). -/
structure KraftFile where
  filename : Option String
  config : Option RawConfig
  deriving DecidableEq

/-- `self.config.get('name', '')`. -/
def RawConfig.get_name (c : RawConfig) : String := c.name.getD ""

/-- `self.config.get('unikraft', {})`. -/
def RawConfig.get_unikraft (c : RawConfig) : CompMap := c.unikraft.getD []

/-- `self.config.get('architectures', {})`. -/
def RawConfig.get_architectures (c : RawConfig) : CompMap := c.architectures.getD []

/-- `self.config.get('platforms', {})`. -/
def RawConfig.get_platforms (c : RawConfig) : CompMap := c.platforms.getD []

/-- `self.config.get('libraries', {})`. -/
def RawConfig.get_libraries (c : RawConfig) : CompMap := c.libraries.getD []

/-- `self.config.get('run', {})`. -/
def RawConfig.get_run (c : RawConfig) : CompMap := c.run.getD []

/-- The resolved specification version of a file. Modelled from the spec:
the classes `SpecificationVersion` (missing `kraft/config/version.py`) and
the constant `KRAFT_SPEC_LATEST` (missing `kraft/const.py`) are represented
by `latest` for the system's latest known specification and `declared v`
for an explicitly declared version string `v`. -/
inductive SpecificationVersion
  | latest
  | declared (v : String)
  deriving DecidableEq

/-- `KRAFT_SPEC_LATEST`: the system's latest known specification. -/
def KRAFT_SPEC_LATEST : SpecificationVersion := SpecificationVersion.latest

/-- The error taxonomy of the pipeline, following `kraft/error.py` (not in
src) and the spec's §7: `specificationVersion` is the `KraftError` raised
by `KraftFile.version` (the spec's `SpecificationVersionError`),
`kraftFileNotFound` the discovery failure (`ManifestNotFoundError`),
`cannotReadKraftfile` the unreadable-manifest error, `schemaValidation` a
section-validation failure, `typeErr`/`indexError'` Python runtime errors. -/
inductive KraftErr
  | cannotReadKraftfile (filename : Option String)
  | specificationVersion (version : String) (filename : Option String)
  | schemaValidation (filename : Option String) (sect : String)
  | kraftFileNotFound (filenames : List String)
  | typeErr
  | indexError'
  deriving DecidableEq

/-- The anchored pattern `^[0-9]+(\.\d+)?$` of `KraftFile.version`: one or
more digits, optionally followed by a dot and one or more digits. -/
def matchesSpecPattern (s : String) : Bool :=
  match splitOnChar '.' s.toList with
  | [a] => digits1 a
  | [a, b] => digits1 a && digits1 b
  | _ => false

/-- Shallow embedding of the `KraftFile.version` property: accessing it on
a file whose `config` is `None` is a Python `TypeError` (`'x' not in None`);
an absent `specification` field yields `KRAFT_SPEC_LATEST`; a present field
must match the numeric pattern, else the invalid-specification `KraftError`
is raised. -/
def KraftFile.version (f : KraftFile) : Except KraftErr SpecificationVersion :=
  match f.config with
  | none => .error .typeErr
  | some c =>
    match c.specification with
    | none => .ok KRAFT_SPEC_LATEST
    | some v =>
      if matchesSpecPattern v then .ok (.declared v)
      else .error (.specificationVersion v f.filename)

/-- Modelled from the spec: the schema validators of the missing
`kraft/config/validation.py`. Each validator returns its input unchanged on
success and fails with a `SchemaValidationError` otherwise (§4.4), so only
the success predicate of each validator is kept, as an oracle. -/
structure Validators where
  top_level_string_ok : KraftFile → String → Bool
  unikraft_ok : KraftFile → CompMap → Bool
  component_ok : Option String → CompMap → String → Bool
  run_ok : KraftFile → CompMap → Bool
  config_schema_ok : KraftFile → Bool

/-- The always-accepting validation oracle (a document that satisfies every
schema rule). -/
def allOk : Validators :=
  Validators.mk (fun _ _ => true) (fun _ _ => true) (fun _ _ _ => true)
    (fun _ _ => true) (fun _ => true)

/-- Modelled from the spec: `interpolate_environment_variables` of the
missing `kraft/config/interpolation.py` substitutes `${VAR}` references in
the string values of a mapping; the substitution itself is kept abstract as
a per-string function `interp`, applied to every value of a description. -/
def interpDesc (interp : String → String) (d : Desc) : Desc :=
  d.map (fun kv => (kv.1, interp kv.2))

/-- Interpolation over a whole component section (a mapping of mappings). -/
def interpMap (interp : String → String) (m : CompMap) : CompMap :=
  m.map (fun kv => (kv.1, interpDesc interp kv.2))

/-- `process_unikraft`: validate, then — when interpolation is on and the
value is a mapping, which it always is here — interpolate; the interpolator
receives `config_file.version`, forcing the specification check. -/
def process_unikraft (interp : String → String) (vd : Validators) (ip : Bool)
    (f : KraftFile) (c : RawConfig) : Except KraftErr CompMap :=
  if vd.unikraft_ok f c.get_unikraft then
    if ip then
      match f.version with
      | .error e => .error e
      | .ok _ => .ok (interpMap interp c.get_unikraft)
    else .ok c.get_unikraft
  else .error (.schemaValidation f.filename "unikraft")

/-- `process_top_level_string` for the `name` section: the value is a
string, never a Python `dict`, so the interpolation branch is dead and the
validated value is returned unchanged. -/
def process_top_level_string (vd : Validators) (f : KraftFile) (value : String) :
    Except KraftErr String :=
  if vd.top_level_string_ok f value then .ok value
  else .error (.schemaValidation f.filename "name")

/-- `process_component_section`: validate, then interpolate unconditionally
when interpolation is on (no mapping check in this one); the interpolator
receives `config_file.version`. -/
def process_component_section (interp : String → String) (vd : Validators)
    (ip : Bool) (f : KraftFile) (value : CompMap) (sect : String) :
    Except KraftErr CompMap :=
  if vd.component_ok f.filename value sect then
    if ip then
      match f.version with
      | .error e => .error e
      | .ok _ => .ok (interpMap interp value)
    else .ok value
  else .error (.schemaValidation f.filename sect)

/-- `process_run_section`: validate, then interpolate when the value is a
mapping (always, here). -/
def process_run_section (interp : String → String) (vd : Validators) (ip : Bool)
    (f : KraftFile) (c : RawConfig) : Except KraftErr CompMap :=
  if vd.run_ok f c.get_run then
    if ip then
      match f.version with
      | .error e => .error e
      | .ok _ => .ok (interpMap interp c.get_run)
    else .ok c.get_run
  else .error (.schemaValidation f.filename "run")

/-- Shallow embedding of `process_config_file`: a file whose parsed content
is `None` short-circuits and is passed through unprocessed; otherwise every
section of a copy of the parsed content is replaced by its processed value,
the file is rebuilt with the processed copy, and the whole document is
validated against the config schema. -/
def process_config_file (interp : String → String) (vd : Validators) (ip : Bool)
    (f : KraftFile) : Except KraftErr KraftFile :=
  match f.config with
  | none => .ok f
  | some c =>
    match process_unikraft interp vd ip f c with
    | .error e => .error e
    | .ok u =>
      match process_top_level_string vd f c.get_name with
      | .error e => .error e
      | .ok n =>
        match process_component_section interp vd ip f c.get_architectures "architectures" with
        | .error e => .error e
        | .ok a =>
          match process_component_section interp vd ip f c.get_platforms "platforms" with
          | .error e => .error e
          | .ok p =>
            match process_component_section interp vd ip f c.get_libraries "libraries" with
            | .error e => .error e
            | .ok l =>
              match process_run_section interp vd ip f c with
              | .error e => .error e
              | .ok r =>
                let f' := KraftFile.mk f.filename
                  (some (RawConfig.mk c.specification (some n) (some u) (some a)
                    (some p) (some l) (some r)))
                if vd.config_schema_ok f' then .ok f'
                else .error (.schemaValidation f'.filename "document")

/-- The list comprehension of `load_config` that processes every file in
order, aborting at the first failure. -/
def processFiles (interp : String → String) (vd : Validators) :
    List KraftFile → Except KraftErr (List KraftFile)
  | [] => .ok []
  | f :: rest =>
    match process_config_file interp vd true f with
    | .error e => .error e
    | .ok f' =>
      match processFiles interp vd rest with
      | .error e => .error e
      | .ok rest' => .ok (f' :: rest')

/-- Shallow embedding of `load_mapping`, generic over the section getter as
the source is generic over `get_func`: the accumulator starts empty and,
for every file whose parsed content is not `None`, is replaced wholesale by
that file's section value.  The source's `isinstance(attr, list)` branch is
unreachable for validated documents (section values are strings or
mappings, never Python lists) and is therefore not represented; the
`entity_type` and `working_dir` parameters of the source are unused there
and dropped here. -/
def load_mapping {α : Type} (config_files : List KraftFile)
    (get : RawConfig → α) (empty : α) : α :=
  config_files.foldl
    (fun mapping f =>
      match f.config with
      | some c => get c
      | none => mapping)
    empty

/-- The parsed content of the last file of the list whose content is not
`None`, if any. -/
def lastConfig : List KraftFile → Option RawConfig
  | [] => none
  | f :: rest =>
    match lastConfig rest with
    | some c => some c
    | none => f.config

/-- The section value that `load_mapping` resolves to, named explicitly:
the getter applied to the last non-`None` parsed content, or the empty
value when there is none. -/
def lastSection {α : Type} (config_files : List KraftFile)
    (get : RawConfig → α) (empty : α) : α :=
  match lastConfig config_files with
  | some c => get c
  | none => empty

/-- `re.sub(r'[^-_a-z0-9]', '', name.lower())`: the characters kept by the
normalization of `get_project_name`. -/
def keepNameChar (c : Char) : Bool :=
  c == '-' || c == '_' || (decide (97 ≤ c.toNat) && decide (c.toNat ≤ 122))
    || isDigitChar c

/-- The inner `normalize_name` of `get_project_name`: lower-case, then drop
every character outside `[-_a-z0-9]`. -/
def normalize_name (s : String) : String :=
  String.mk ((s.toList.map lowerChar).filter keepNameChar)

/-- `os.path.basename`: the final component of a (normalized, absolute)
path string. -/
def basename (p : String) : String :=
  (pySplit '/' p).getLastD ""

/-- Python `a or b` over optional strings, where `None` and the empty
string are falsy. -/
def pyOr (a b : Option String) : Option String :=
  match a with
  | some s => if s = "" then b else some s
  | none => b

/-- The process environment of a resolution session: an ordered mapping of
variable names to values (`environment.get(k)` is `envLookup`). -/
abbrev Environment : Type := List (String × String)

/-- `environment.get(key)`. -/
def envLookup (env : Environment) (k : String) : Option String :=
  match env.find? (fun kv => kv.1 == k) with
  | some kv => some kv.2
  | none => none

/-- Shallow embedding of `get_project_name`: an explicitly passed project
name, or else the environment's `KRAFT_PROJECT_NAME` (empty strings being
falsy), is normalized and returned when truthy; otherwise the basename of
the (absolute) working directory is normalized when the *raw* basename is
non-empty, and the literal `"default"` is returned only when the raw
basename itself is empty.  The `if not environment` reload from an `.env`
file is an environment-construction detail outside this embedding: the
effective environment is an explicit input. -/
def get_project_name (workdir : String) (project_name : Option String)
    (env_name : Option String) : String :=
  match pyOr project_name env_name with
  | some p =>
    if p ≠ "" then normalize_name p
    else
      let project := basename workdir
      if project ≠ "" then normalize_name project else "default"
  | none =>
    let project := basename workdir
    if project ≠ "" then normalize_name project else "default"

/-- `ConfigDetails`: one resolution session. The working directory is kept
as an absolute path string. -/
structure ConfigDetails where
  working_dir : String
  config_files : List KraftFile
  environment : Environment

/-- `Config`: the immutable result of a resolution. -/
structure Config where
  specification : SpecificationVersion
  name : String
  unikraft : CompMap
  architectures : CompMap
  platforms : CompMap
  libraries : CompMap
  runner : CompMap
  deriving DecidableEq

/-- The merge-and-default phase of `load_config`, over the already
processed file sequence: the first file of the sequence is the main file
and an empty main file aborts with the unreadable-manifest error (an empty
file list would be a Python `IndexError` at `config_files[0]`); each
section is merged with `load_mapping`; an empty merged name falls back to
`get_project_name`; the main file's resolved specification version becomes
`Config.specification`. -/
def merge_config (details : ConfigDetails) (processed : List KraftFile) :
    Except KraftErr Config :=
  match processed with
  | [] => .error .indexError'
  | main_file :: _ =>
    match main_file.config with
    | none => .error (.cannotReadKraftfile main_file.filename)
    | some _ =>
      let name0 := load_mapping processed RawConfig.get_name ""
      let name :=
        if name0 = "" then
          get_project_name details.working_dir none
            (envLookup details.environment "KRAFT_PROJECT_NAME")
        else name0
      match main_file.version with
      | .error e => .error e
      | .ok sv =>
        .ok (Config.mk sv name
          (load_mapping processed RawConfig.get_unikraft [])
          (load_mapping processed RawConfig.get_architectures [])
          (load_mapping processed RawConfig.get_platforms [])
          (load_mapping processed RawConfig.get_libraries [])
          (load_mapping processed RawConfig.get_run []))

/-- Shallow embedding of `load_config`: process every file of the session
in order (aborting at the first processing failure), then merge the
processed sequence with `merge_config`. -/
def load_config (interp : String → String) (vd : Validators)
    (details : ConfigDetails) : Except KraftErr Config :=
  match processFiles interp vd details.config_files with
  | .error e => .error e
  | .ok processed => merge_config details processed

/-! ### Config discovery (`find_candidates_in_parent_dirs`) -/

/-- The worker of the upward search, structurally recursive on the
*reversed* component list of the directory: at each directory the accepted
filenames present there are collected; when none are present and the
directory is not the root, the search retries in the parent (dropping the
last component); at the root (empty component list — where joining `..`
resolves to the same absolute path) the collected candidates, possibly
empty, are returned with the directory.  `fs dir fn` tells whether file
`fn` exists in directory `dir` (`os.path.exists`). -/
def find_candidates_aux (fs : List String → String → Bool)
    (filenames : List String) : List String → List String × List String
  | [] => (filenames.filter (fun fn => fs [] fn), [])
  | c :: rest =>
    let path := (c :: rest).reverse
    let candidates := filenames.filter (fun fn => fs path fn)
    if candidates.isEmpty then find_candidates_aux fs filenames rest
    else (candidates, path)

/-- Shallow embedding of `find_candidates_in_parent_dirs`; directories are
component lists of absolute paths (so the parent drops the last component
and the filesystem root is `[]`). -/
def find_candidates_in_parent_dirs (fs : List String → String → Bool)
    (filenames : List String) (path : List String) :
    List String × List String :=
  find_candidates_aux fs filenames path.reverse

/-- Shallow embedding of `get_default_config_files`: run discovery from the
base directory with the accepted-name priority list and fail with
`KraftFileNotFound` when no candidate was found anywhere up to the root;
otherwise the first candidate in priority order wins (further candidates
only produce a warning) and the single winning path is returned as a
(directory, filename) pair.  The accepted-name list `SUPPORTED_FILENAMES`
lives in the missing `kraft/const.py` and is a parameter here. -/
def get_default_config_files (fs : List String → String → Bool)
    (filenames : List String) (base_dir : List String) :
    Except KraftErr (List (List String × String)) :=
  match find_candidates_in_parent_dirs fs filenames base_dir with
  | ([], _) => .error (.kraftFileNotFound filenames)
  | (winner :: _, path) => .ok [(path, winner)]

/-! ## Helper lemmas -/

theorem lookupVM_map_upd_self (k v : String) :
    ∀ m : VMap, m.any (fun p => p.1 == k) = true →
      lookupVM k (m.map (fun p => if p.1 == k then (k, v) else p)) = some v := by
  intro m
  induction m with
  | nil => simp
  | cons p t ih =>
    intro hany
    by_cases hp : p.1 = k
    · simp [lookupVM, hp]
    · have ht : t.any (fun p => p.1 == k) = true := by
        simpa [List.any_cons, hp] using hany
      simpa [lookupVM, hp] using ih ht

theorem lookupVM_append_self (k v : String) :
    ∀ m : VMap, m.any (fun p => p.1 == k) = false →
      lookupVM k (m ++ [(k, v)]) = some v := by
  intro m
  induction m with
  | nil => simp [lookupVM]
  | cons p t ih =>
    intro hany
    simp only [List.any_cons, Bool.or_eq_false_iff] at hany
    have hp : ¬(p.1 = k) := by
      simpa using hany.1
    simpa [lookupVM, hp] using ih hany.2

theorem lookupVM_updateVersions_self (m : VMap) (k v : String) :
    lookupVM k (updateVersions m k v) = some v := by
  unfold updateVersions
  by_cases h : m.any (fun p => p.1 == k) = true
  · simp only [h, if_true]
    exact lookupVM_map_upd_self k v m h
  · have h' : m.any (fun p => p.1 == k) = false := Bool.eq_false_iff.mpr h
    simp only [h', Bool.false_eq_true, if_false]
    exact lookupVM_append_self k v m h'

theorem lookupVM_map_upd_ne (k k' v : String) (hne : k' ≠ k) :
    ∀ m : VMap, lookupVM k' (m.map (fun p => if p.1 == k then (k, v) else p)) =
      lookupVM k' m := by
  intro m
  induction m with
  | nil => simp
  | cons p t ih =>
    have hk : ¬(k = k') := fun hh => hne hh.symm
    by_cases hp : p.1 = k
    · have hp' : ¬(p.1 = k') := by
        rw [hp]
        exact hk
      simpa [lookupVM, hp, hk, hp'] using ih
    · by_cases hq : p.1 = k'
      · simp [lookupVM, hp, hq, hne]
      · simpa [lookupVM, hp, hq] using ih

theorem lookupVM_append_ne (k k' v : String) (hne : k' ≠ k) :
    ∀ m : VMap, lookupVM k' (m ++ [(k, v)]) = lookupVM k' m := by
  intro m
  have hk : ¬(k = k') := fun hh => hne hh.symm
  induction m with
  | nil => simp [lookupVM, hk]
  | cons p t ih =>
    by_cases hp : p.1 = k'
    · simp [lookupVM, hp]
    · simp [lookupVM, hp, ih]

theorem lookupVM_updateVersions_ne (m : VMap) (k k' v : String) (hne : k' ≠ k) :
    lookupVM k' (updateVersions m k v) = lookupVM k' m := by
  unfold updateVersions
  by_cases h : m.any (fun p => p.1 == k) = true
  · simp only [h, if_true]
    exact lookupVM_map_upd_ne k k' v hne m
  · have h' : m.any (fun p => p.1 == k) = false := Bool.eq_false_iff.mpr h
    simp only [h', Bool.false_eq_true, if_false]
    exact lookupVM_append_ne k k' v hne m

theorem processLines_append (isUK : Bool) (utag : String → Option String) :
    ∀ (l1 l2 : List String) (m : VMap),
      processLines isUK utag (l1 ++ l2) m =
        match processLines isUK utag l1 m with
        | .error e => .error e
        | .ok m' => processLines isUK utag l2 m' := by
  intro l1
  induction l1 with
  | nil => intro l2 m; rfl
  | cons line rest ih =>
    intro l2 m
    simp only [List.cons_append, processLines]
    cases lineContrib isUK utag line with
    | error e => rfl
    | ok contrib =>
      cases contrib with
      | none => exact ih l2 m
      | some vc => exact ih l2 (updateVersions m vc.1 vc.2)

theorem processLines_preserve (isUK : Bool) (utag : String → Option String)
    (v : String) :
    ∀ (l : List String) (m m' : VMap),
      (∀ y ∈ l, ∀ c', lineContrib isUK utag y ≠ .ok (some (v, c'))) →
      processLines isUK utag l m = .ok m' →
      lookupVM v m' = lookupVM v m := by
  intro l
  induction l with
  | nil =>
    intro m m' _ hp
    cases hp
    rfl
  | cons y t ih =>
    intro m m' hno hp
    simp only [processLines] at hp
    cases hc : lineContrib isUK utag y with
    | error e => rw [hc] at hp; cases hp
    | ok contrib =>
      rw [hc] at hp
      cases contrib with
      | none => exact ih m m' (fun z hz => hno z (List.mem_cons_of_mem y hz)) hp
      | some vc =>
        rcases vc with ⟨v1, c1⟩
        have hvne : v1 ≠ v := by
          intro hv
          subst hv
          exact hno y (List.mem_cons_self y t) c1 hc
        have hstep := ih (updateVersions m v1 c1) m'
          (fun z hz => hno z (List.mem_cons_of_mem y hz)) hp
        rw [hstep, lookupVM_updateVersions_ne m v1 v c1 (fun hh => hvne hh.symm)]

theorem load_mapping_eq_lastSection {α : Type} (get : RawConfig → α) :
    ∀ (files : List KraftFile) (e : α),
      load_mapping files get e = lastSection files get e := by
  intro files
  induction files with
  | nil => intro e; rfl
  | cons f t ih =>
    intro e
    have step : load_mapping (f :: t) get e =
        load_mapping t get (match f.config with | some c => get c | none => e) := rfl
    rw [step, ih]
    simp only [lastSection, lastConfig]
    cases lastConfig t with
    | some c => rfl
    | none => cases f.config <;> rfl

theorem processFiles_append (interp : String → String) (vd : Validators) :
    ∀ l1 l2 : List KraftFile,
      processFiles interp vd (l1 ++ l2) =
        match processFiles interp vd l1 with
        | .error e => .error e
        | .ok l1' =>
          match processFiles interp vd l2 with
          | .error e => .error e
          | .ok l2' => .ok (l1' ++ l2') := by
  intro l1
  induction l1 with
  | nil =>
    intro l2
    simp only [List.nil_append, processFiles]
    cases processFiles interp vd l2 <;> rfl
  | cons f t ih =>
    intro l2
    simp only [List.cons_append, processFiles, List.append_eq]
    rw [ih l2]
    cases process_config_file interp vd true f with
    | error e => rfl
    | ok f' =>
      cases processFiles interp vd t with
      | error e => rfl
      | ok t' =>
        cases processFiles interp vd l2 <;> rfl

theorem find_candidates_aux_none (fs : List String → String → Bool)
    (filenames : List String) :
    ∀ rp : List String,
      (∀ p : List String, p <+: rp.reverse → ∀ fn ∈ filenames, fs p fn = false) →
      find_candidates_aux fs filenames rp = ([], []) := by
  intro rp
  induction rp with
  | nil =>
    intro h
    have hfil : filenames.filter (fun fn => fs [] fn) = [] := by
      refine List.filter_eq_nil_iff.mpr ?_
      intro fn hfn
      simp [h [] List.nil_prefix fn hfn]
    simp [find_candidates_aux, hfil]
  | cons c rest ih =>
    intro h
    rw [List.reverse_cons] at h
    have hfil : filenames.filter (fun fn => fs (rest.reverse ++ [c]) fn) = [] := by
      refine List.filter_eq_nil_iff.mpr ?_
      intro fn hfn
      simp [h (rest.reverse ++ [c]) (List.prefix_refl _) fn hfn]
    have hrest : ∀ p : List String, p <+: rest.reverse →
        ∀ fn ∈ filenames, fs p fn = false := by
      intro p hp fn hfn
      exact h p (hp.trans (List.prefix_append _ _)) fn hfn
    simp only [find_candidates_aux, List.reverse_cons, hfil, List.isEmpty_nil, if_true]
    exact ih hrest

theorem splitOnCharAux_head (sep : Char) :
    ∀ (l acc : List Char), ∃ a tail,
      splitOnCharAux sep l acc = (acc.reverse ++ a) :: tail := by
  intro l
  induction l with
  | nil =>
    intro acc
    exact ⟨[], [], by simp [splitOnCharAux]⟩
  | cons c t ih =>
    intro acc
    by_cases hc : c = sep
    · exact ⟨[], splitOnCharAux sep t [], by simp [splitOnCharAux, hc]⟩
    · rcases ih (c :: acc) with ⟨a, tail, htl⟩
      refine ⟨c :: a, tail, ?_⟩
      simp only [splitOnCharAux, hc, if_false]
      rw [htl]
      simp

theorem splitOnChar_cons_ne (sep c : Char) (l : List Char) (h : ¬(c = sep)) :
    ∃ a tail, splitOnChar sep (c :: l) = (c :: a) :: tail := by
  rcases splitOnCharAux_head sep l [c] with ⟨a, tail, ht⟩
  refine ⟨a, tail, ?_⟩
  simp only [splitOnChar, splitOnCharAux, h, if_false]
  simpa using ht

theorem digits1_head (c : Char) (l : List Char) (h : digits1 (c :: l) = true) :
    isDigitChar c = true := by
  simp only [digits1, List.all_cons, Bool.and_eq_true] at h
  exact h.2.1

theorem isVSemver_vnorm (x : String) : isVSemver (vnorm x) = false := by
  unfold vnorm
  by_cases h : isVSemver x = true
  · simp only [h, if_true]
    unfold isVSemver at h
    cases hx : x.toList with
    | nil => rw [hx] at h; cases h
    | cons c0 rest =>
      rw [hx, Bool.and_eq_true] at h
      rcases h with ⟨hc0, hrest⟩
      have hdrop : (pyDrop 1 x).toList = rest := by
        show x.toList.drop 1 = rest
        rw [hx]
        rfl
      cases hsp : splitOnChar '.' rest with
      | nil => rw [hsp] at hrest; cases hrest
      | cons a t0 =>
        cases t0 with
        | nil => rw [hsp] at hrest; cases hrest
        | cons b t1 =>
          cases t1 with
          | nil => rw [hsp] at hrest; cases hrest
          | cons cc t2 =>
            cases t2 with
            | cons d t3 => rw [hsp] at hrest; cases hrest
            | nil =>
              rw [hsp, Bool.and_eq_true, Bool.and_eq_true] at hrest
              rcases hrest with ⟨⟨hda, hdb⟩, hdc⟩
              cases hr : rest with
              | nil =>
                rw [hr] at hsp
                simp [splitOnChar, splitOnCharAux] at hsp
              | cons c1 rest2 =>
                by_cases hc1 : c1 = '.'
                · have hsp2 : splitOnChar '.' (c1 :: rest2) =
                      [] :: splitOnCharAux '.' rest2 [] := by
                    simp [splitOnChar, splitOnCharAux, hc1]
                  rw [hr, hsp2, List.cons.injEq] at hsp
                  rw [← hsp.1] at hda
                  cases hda
                · rcases splitOnChar_cons_ne '.' c1 rest2 hc1 with ⟨a', tail', hsp2⟩
                  rw [hr, hsp2, List.cons.injEq] at hsp
                  have hd1 : isDigitChar c1 = true := by
                    rw [← hsp.1] at hda
                    exact digits1_head c1 a' hda
                  have hcv : (c1 == 'v') = false := by
                    by_cases hv : c1 = 'v'
                    · rw [hv] at hd1; cases hd1
                    · simp [hv]
                  have hred : isVSemver (pyDrop 1 x) =
                      ((c1 == 'v') &&
                        match splitOnChar '.' rest2 with
                        | [a, b, c] => digits1 a && digits1 b && digits1 c
                        | _ => false) := by
                    unfold isVSemver
                    rw [hdrop, hr]
                  rw [hred, hcv]
                  exact Bool.false_and _
  · have h' : isVSemver x = false := Bool.eq_false_iff.mpr h
    simp only [h', Bool.false_eq_true, if_false]

/-- A listing line after which the loop body does not raise: its tab-split
is empty, or its first field is empty (both skipped), or it has at least
two fields. -/
def lineWellFormed (line : String) : Bool :=
  match pySplit '\t' line with
  | [] => true
  | first :: rest => first.isEmpty || !rest.isEmpty

theorem processLines_wf (isUK : Bool) (utag : String → Option String) :
    ∀ (lines : List String) (m0 : VMap),
      (∀ line ∈ lines, lineWellFormed line = true) →
      ∃ m, processLines isUK utag lines m0 = .ok m := by
  intro lines
  induction lines with
  | nil => intro m0 _; exact ⟨m0, rfl⟩
  | cons line rest ih =>
    intro m0 h
    have hwf := h line (List.mem_cons_self line rest)
    have hrest := fun z hz => h z (List.mem_cons_of_mem line hz)
    have hcontrib : ∃ o, lineContrib isUK utag line = .ok o := by
      unfold lineContrib
      unfold lineWellFormed at hwf
      cases hsp : pySplit '\t' line with
      | nil => exact ⟨none, rfl⟩
      | cons first rest2 =>
        rw [hsp] at hwf
        by_cases hfe : first.isEmpty = true
        · simp only [hfe, if_true]
          exact ⟨none, rfl⟩
        · have hne : rest2.isEmpty = false := by
            have hfe' : first.isEmpty = false := Bool.eq_false_iff.mpr hfe
            simpa [hfe'] using hwf
          cases rest2 with
          | nil => cases hne
          | cons rp more =>
            simp only [hfe, Bool.false_eq_true, if_false]
            exact ⟨(classifyRef isUK utag rp).map (fun v => (v, first)), rfl⟩
    rcases hcontrib with ⟨o, ho⟩
    cases o with
    | none =>
      rcases ih m0 hrest with ⟨m, hm⟩
      refine ⟨m, ?_⟩
      simp only [processLines, ho]
      exact hm
    | some vc =>
      rcases ih (updateVersions m0 vc.1 vc.2) hrest with ⟨m, hm⟩
      refine ⟨m, ?_⟩
      simp only [processLines, ho]
      exact hm

/-! ## Claim theorems: the git provider -/

/-- C2.  For every entry of a remote listing, the reference path is first
tested against the branch pattern, whose capture becomes the version string
(so when the branch pattern matches, the classification does not depend on
either tag pattern or on the origin flag at all); only when it fails is a
tag pattern consulted — the framework-specific one exactly when the source
starts with the framework origin, the generic one otherwise; every
resulting version string that matches the v-prefixed semantic-version
pattern has its leading `v` stripped (no classification result is ever
still v-prefixed); and on the listing
`"abc123\trefs/heads/main\nxyz789\trefs/tags/v1.2.3\n"` with a source that
is not framework-origin, the probe returns exactly
`{main ↦ abc123, 1.2.3 ↦ xyz789}`. -/
theorem git_probe_classification :
    (∀ (uk uk' : Bool) (utag utag' : String → Option String) (refPath : String),
      GIT_BRANCH_PATTERN refPath ≠ none →
      classifyRef uk utag refPath = classifyRef uk' utag' refPath)
    ∧ (∀ (utag : String → Option String) (refPath : String),
      GIT_BRANCH_PATTERN refPath = none →
      classifyRef true utag refPath = (utag refPath).map vnorm ∧
      classifyRef false utag refPath = (GIT_TAG_PATTERN refPath).map vnorm)
    ∧ (∀ (uk : Bool) (utag : String → Option String) (refPath v : String),
      classifyRef uk utag refPath = some v → isVSemver v = false)
    ∧ (∀ (utag : String → Option String) (origin : String),
      pyStartswith "https://example.com/repo.git" origin = false →
      git_probe_remote_versions origin utag
        (.ok "abc123\trefs/heads/main\nxyz789\trefs/tags/v1.2.3\n")
        (some "https://example.com/repo.git") =
        .ok [("main", "abc123"), ("1.2.3", "xyz789")]) := by
  refine ⟨?_, ?_, ?_, ?_⟩
  · intro uk uk' utag utag' refPath hbr
    unfold classifyRef
    cases hb : GIT_BRANCH_PATTERN refPath with
    | some br => rfl
    | none => exact absurd hb hbr
  · intro utag refPath hbr
    unfold classifyRef
    rw [hbr]
    constructor
    · cases utag refPath <;> rfl
    · cases GIT_TAG_PATTERN refPath <;> rfl
  · intro uk utag refPath v hcl
    unfold classifyRef at hcl
    cases hb : GIT_BRANCH_PATTERN refPath with
    | some br =>
      rw [hb] at hcl
      have hv : v = vnorm br := (Option.some.injEq _ _ ▸ hcl).symm
      rw [hv]
      exact isVSemver_vnorm br
    | none =>
      rw [hb] at hcl
      cases ht : (if uk then utag refPath else GIT_TAG_PATTERN refPath) with
      | some t =>
        rw [ht] at hcl
        have hv : v = vnorm t := (Option.some.injEq _ _ ▸ hcl).symm
        rw [hv]
        exact isVSemver_vnorm t
      | none => rw [ht] at hcl; cases hcl
  · intro utag origin h
    have huk : ukFlag origin (stripFileScheme "https://example.com/repo.git") = false := h
    show processLines (ukFlag origin (stripFileScheme "https://example.com/repo.git")) utag
      (pySplit '\n' "abc123\trefs/heads/main\nxyz789\trefs/tags/v1.2.3\n") [] =
      .ok [("main", "abc123"), ("1.2.3", "xyz789")]
    rw [huk]
    rfl

/-- Witness for C2 at concrete inputs: the branch-matching reference
classification is insensitive to the tag patterns, and the probe of the
spec's example listing against a non-framework origin yields exactly the
expected mapping. -/
theorem git_probe_classification_witness :
    classifyRef true (fun _ => none) "refs/heads/main" =
      classifyRef false (fun _ => some "zzz") "refs/heads/main"
    ∧ git_probe_remote_versions "https://github.com/unikraft" (fun _ => none)
        (.ok "abc123\trefs/heads/main\nxyz789\trefs/tags/v1.2.3\n")
        (some "https://example.com/repo.git") =
        .ok [("main", "abc123"), ("1.2.3", "xyz789")] :=
  ⟨git_probe_classification.1 true false (fun _ => none) (fun _ => some "zzz")
      "refs/heads/main" (fun hh => Option.noConfusion hh),
    git_probe_classification.2.2.2 (fun _ => none) "https://github.com/unikraft" rfl⟩

/-- C3 counterexample.  The claim says the probe skips malformed entries
and returns normally on every listing; but a non-blank listing line with no
tab separator (here the single line `"abc123"`) passes the skip guard (its
first split field is non-empty) and the subscript of the missing second
field raises `IndexError`, so the probe does not return normally. -/
theorem git_probe_malformed_cex :
    git_probe_remote_versions "https://github.com/unikraft" (fun _ => none)
      (.ok "abc123") (some "https://example.com/repo.git") = .error .indexErr := rfl

/-- C3 amended.  Blank lines and lines with an empty first field are
skipped, and well-formed entries matching neither pattern contribute
nothing, without error; but the probe returns normally only on listings
every line of which is blank, has an empty first field, or has at least two
tab-separated fields — a non-blank line without a tab raises `IndexError`. -/
theorem git_probe_wellformed_total :
    (∀ (origin src listing : String) (utag : String → Option String),
      (∀ line ∈ pySplit '\n' listing, lineWellFormed line = true) →
      ∃ m, git_probe_remote_versions origin utag (.ok listing) (some src) = .ok m)
    ∧ (∀ (isUK : Bool) (utag : String → Option String) (line : String) (m : VMap),
      lineContrib isUK utag line = .ok none →
      processLines isUK utag [line] m = .ok m) := by
  constructor
  · intro origin src listing utag h
    exact processLines_wf (ukFlag origin (stripFileScheme src)) utag
      (pySplit '\n' listing) [] h
  · intro isUK utag line m hnone
    simp only [processLines, hnone]

/-- Witness for C3's amended statement: a listing with a blank line and a
no-match entry (`refs/pull/…`) probes to some mapping, and a no-match line
leaves the mapping untouched. -/
theorem git_probe_wellformed_total_witness :
    (∃ m, git_probe_remote_versions "https://github.com/unikraft" (fun _ => none)
      (.ok "abc\trefs/pull/1/head\n\nxyz\trefs/tags/v9.9.9") (some "src") = .ok m)
    ∧ processLines false (fun _ => none) ["abc\trefs/pull/1/head"] [] = .ok [] :=
  ⟨git_probe_wellformed_total.1 "https://github.com/unikraft" "src"
      "abc\trefs/pull/1/head\n\nxyz\trefs/tags/v9.9.9" (fun _ => none) (by decide),
    git_probe_wellformed_total.2 false (fun _ => none) "abc\trefs/pull/1/head" [] rfl⟩

/-- C5.  Entries are processed in listing order and inserted with plain key
assignment, so when an entry `x` contributes version `v` and no later entry
of the listing contributes `v`, the returned mapping's value for `v` is
`x`'s content id — the later of any two entries normalizing to the same
version string wins silently. -/
theorem git_probe_last_write_wins (origin : String) (utag : String → Option String)
    (src listing : String) (l1 l2 : List String) (x v c : String) (m : VMap)
    (hsplit : pySplit '\n' listing = l1 ++ x :: l2)
    (hx : lineContrib (ukFlag origin (stripFileScheme src)) utag x = .ok (some (v, c)))
    (hlater : ∀ y ∈ l2, ∀ c',
      lineContrib (ukFlag origin (stripFileScheme src)) utag y ≠ .ok (some (v, c')))
    (hres : git_probe_remote_versions origin utag (.ok listing) (some src) = .ok m) :
    lookupVM v m = some c := by
  have hres' : processLines (ukFlag origin (stripFileScheme src)) utag
      (l1 ++ x :: l2) [] = .ok m := by
    rw [← hsplit]
    exact hres
  rw [processLines_append] at hres'
  cases hp1 : processLines (ukFlag origin (stripFileScheme src)) utag l1 [] with
  | error e => rw [hp1] at hres'; cases hres'
  | ok m1 =>
    rw [hp1] at hres'
    simp only [processLines, hx] at hres'
    have := processLines_preserve (ukFlag origin (stripFileScheme src)) utag v
      l2 (updateVersions m1 v c) m hlater hres'
    rw [this, lookupVM_updateVersions_self]

/-- Witness for C5: two tag entries both normalizing to `1.0.0` with
content ids `aaa` then `bbb`; the probed mapping holds `bbb`. -/
theorem git_probe_last_write_wins_witness :
    lookupVM "1.0.0" [("1.0.0", "bbb")] = some "bbb" :=
  git_probe_last_write_wins "https://github.com/unikraft" (fun _ => none)
    "https://example.com/r.git" "aaa\trefs/tags/v1.0.0\nbbb\trefs/tags/1.0.0"
    ["aaa\trefs/tags/v1.0.0"] [] "bbb\trefs/tags/1.0.0" "1.0.0" "bbb"
    [("1.0.0", "bbb")] rfl rfl
    (fun y hy => absurd hy (List.not_mem_nil y)) rfl

/-- C6.  When the remote listing fails with a `GitCommandError` (an
unreachable source), the probe catches it and returns the empty mapping for
every source, never propagating the error. -/
theorem git_probe_transport_failure (origin : String)
    (utag : String → Option String) (e : GitCommandError) (source : Option String) :
    git_probe_remote_versions origin utag (.error e) source = .ok [] := by
  cases source <;> rfl

/-- C7.  `is_type` is a total boolean function (capability probing never
throws: both probe exceptions are caught by construction); it rejects a
missing source; and for a present source, after stripping an optional
`file://` prefix, it accepts exactly when the source lies inside a valid
working tree (some repository root is an ancestor of it — the
parent-directory search) or when the remote listing of the source succeeds,
and rejects when both probes fail. -/
theorem is_type_capability (b : GitBackend) (source : Option String) :
    (is_type b none = false)
    ∧ (∀ s, source = some s →
      (is_type b source = true ↔
        (∃ r ∈ b.repoRoots, r <+: pathComponents (stripFileScheme s)) ∨
        ∃ listing, b.lsRemote (stripFileScheme s) = .ok listing)) := by
  constructor
  · rfl
  · intro s hs
    subst hs
    show (is_type b (some s) = true ↔ _)
    simp only [is_type, gitRepoOpen]
    by_cases hl : b.repoRoots.any
        (fun r => r.isPrefixOf (pathComponents (stripFileScheme s))) = true
    · simp only [hl, if_true]
      constructor
      · intro _
        left
        rcases List.any_eq_true.mp hl with ⟨r, hr, hpre⟩
        exact ⟨r, hr, List.isPrefixOf_iff_prefix.mp hpre⟩
      · intro _
        trivial
    · have hl' : b.repoRoots.any
          (fun r => r.isPrefixOf (pathComponents (stripFileScheme s))) = false :=
        Bool.eq_false_iff.mpr hl
      simp only [hl', Bool.false_eq_true, if_false]
      cases hrem : b.lsRemote (stripFileScheme s) with
      | ok listing =>
        constructor
        · intro _
          right
          exact ⟨listing, rfl⟩
        · intro _
          trivial
      | error e =>
        constructor
        · intro hfalse
          cases hfalse
        · intro hor
          rcases hor with hpre | ⟨listing, hlist⟩
          · rcases hpre with ⟨r, hr, hpre⟩
            have : b.repoRoots.any
                (fun r => r.isPrefixOf (pathComponents (stripFileScheme s))) = true :=
              List.any_eq_true.mpr ⟨r, hr, List.isPrefixOf_iff_prefix.mpr hpre⟩
            rw [this] at hl'
            cases hl'
          · cases hlist

/-- Witness for C7: a backend whose only working tree is rooted at
`/home/repo` and whose remote listing always fails accepts the nested
subdirectory `/home/repo/sub/dir` and rejects `/other/place`. -/
theorem is_type_capability_witness :
    is_type (GitBackend.mk [["", "home", "repo"]] (fun _ => .error .commandError))
      (some "/home/repo/sub/dir") = true
    ∧ is_type (GitBackend.mk [["", "home", "repo"]] (fun _ => .error .commandError))
      (some "/other/place") = false := by
  constructor
  · exact ((is_type_capability
      (GitBackend.mk [["", "home", "repo"]] (fun _ => .error .commandError))
      (some "/home/repo/sub/dir")).2 "/home/repo/sub/dir" rfl).mpr
      (Or.inl ⟨["", "home", "repo"], by decide, by decide⟩)
  · have hiff := (is_type_capability
      (GitBackend.mk [["", "home", "repo"]] (fun _ => .error .commandError))
      (some "/other/place")).2 "/other/place" rfl
    cases hb : is_type (GitBackend.mk [["", "home", "repo"]]
        (fun _ => .error .commandError)) (some "/other/place") with
    | false => rfl
    | true =>
      rcases hiff.mp hb with hpre | ⟨listing, hlist⟩
      · rcases hpre with ⟨r, hr, hpre⟩
        have hr' : r = ["", "home", "repo"] := by
          simpa using hr
        rw [hr'] at hpre
        exact absurd hpre (by decide)
      · cases hlist

theorem processFiles_cons_elim (interp : String → String) (vd : Validators)
    (f : KraftFile) (t : List KraftFile) (l' : List KraftFile)
    (h : processFiles interp vd (f :: t) = .ok l') :
    ∃ f' t', l' = f' :: t' ∧ process_config_file interp vd true f = .ok f' ∧
      processFiles interp vd t = .ok t' := by
  simp only [processFiles] at h
  cases hf : process_config_file interp vd true f with
  | error e => rw [hf] at h; cases h
  | ok f' =>
    rw [hf] at h
    cases ht : processFiles interp vd t with
    | error e => rw [ht] at h; cases h
    | ok t' =>
      rw [ht] at h
      refine ⟨f', t', ?_, rfl, rfl⟩
      injection h with hh
      exact hh.symm

theorem process_config_file_spec_preserved (interp : String → String)
    (vd : Validators) (ip : Bool) (f : KraftFile) (c : RawConfig) (f' : KraftFile)
    (hc : f.config = some c)
    (h : process_config_file interp vd ip f = .ok f') :
    ∃ c', f'.config = some c' ∧ c'.specification = c.specification := by
  simp only [process_config_file, hc] at h
  cases h1 : process_unikraft interp vd ip f c with
  | error e => simp only [h1] at h; cases h
  | ok u =>
    simp only [h1] at h
    cases h2 : process_top_level_string vd f c.get_name with
    | error e => simp only [h2] at h; cases h
    | ok n =>
      simp only [h2] at h
      cases h3 : process_component_section interp vd ip f c.get_architectures "architectures" with
      | error e => simp only [h3] at h; cases h
      | ok a =>
        simp only [h3] at h
        cases h4 : process_component_section interp vd ip f c.get_platforms "platforms" with
        | error e => simp only [h4] at h; cases h
        | ok p =>
          simp only [h4] at h
          cases h5 : process_component_section interp vd ip f c.get_libraries "libraries" with
          | error e => simp only [h5] at h; cases h
          | ok l =>
            simp only [h5] at h
            cases h6 : process_run_section interp vd ip f c with
            | error e => simp only [h6] at h; cases h
            | ok r =>
              simp only [h6] at h
              split at h
              · injection h with hh
                refine ⟨RawConfig.mk c.specification (some n) (some u) (some a)
                  (some p) (some l) (some r), ?_, rfl⟩
                rw [← hh]
              · cases h

theorem load_mapping_append_none {α : Type} (l : List KraftFile) (f : KraftFile)
    (get : RawConfig → α) (e : α) (hf : f.config = none) :
    load_mapping (l ++ [f]) get e = load_mapping l get e := by
  unfold load_mapping
  rw [List.foldl_append]
  simp [hf]

theorem load_mapping_cons_append_none {α : Type} (m' : KraftFile)
    (r' : List KraftFile) (f : KraftFile) (get : RawConfig → α) (e : α)
    (hf : f.config = none) :
    load_mapping (m' :: (r' ++ [f])) get e = load_mapping (m' :: r') get e := by
  show load_mapping (r' ++ [f]) get _ = load_mapping r' get _
  exact load_mapping_append_none r' f get _ hf

theorem merge_config_ok_elim (details : ConfigDetails)
    (processed : List KraftFile) (cfg : Config)
    (h : merge_config details processed = .ok cfg) :
    ∃ main rest sv, processed = main :: rest ∧ main.version = .ok sv ∧
      cfg = Config.mk sv
        (if load_mapping processed RawConfig.get_name "" = "" then
          get_project_name details.working_dir none
            (envLookup details.environment "KRAFT_PROJECT_NAME")
        else load_mapping processed RawConfig.get_name "")
        (load_mapping processed RawConfig.get_unikraft [])
        (load_mapping processed RawConfig.get_architectures [])
        (load_mapping processed RawConfig.get_platforms [])
        (load_mapping processed RawConfig.get_libraries [])
        (load_mapping processed RawConfig.get_run []) := by
  cases processed with
  | nil => cases h
  | cons main rest =>
    simp only [merge_config] at h
    cases hmc : main.config with
    | none => simp only [hmc] at h; cases h
    | some c =>
      simp only [hmc] at h
      cases hv : main.version with
      | error e => simp only [hv] at h; cases h
      | ok sv =>
        simp only [hv] at h
        refine ⟨main, rest, sv, rfl, hv, ?_⟩
        injection h with hh
        exact hh.symm

theorem load_config_ok_elim (interp : String → String) (vd : Validators)
    (details : ConfigDetails) (cfg : Config)
    (h : load_config interp vd details = .ok cfg) :
    ∃ processed, processFiles interp vd details.config_files = .ok processed ∧
      merge_config details processed = .ok cfg := by
  unfold load_config at h
  cases hp : processFiles interp vd details.config_files with
  | error e => rw [hp] at h; cases h
  | ok processed =>
    rw [hp] at h
    exact ⟨processed, rfl, h⟩

theorem merge_config_cons_append_none (d : ConfigDetails) (m' : KraftFile)
    (r' : List KraftFile) (f : KraftFile) (hf : f.config = none) :
    merge_config d (m' :: (r' ++ [f])) = merge_config d (m' :: r') := by
  unfold merge_config
  rw [load_mapping_cons_append_none m' r' f RawConfig.get_name "" hf,
    load_mapping_cons_append_none m' r' f RawConfig.get_unikraft [] hf,
    load_mapping_cons_append_none m' r' f RawConfig.get_architectures [] hf,
    load_mapping_cons_append_none m' r' f RawConfig.get_platforms [] hf,
    load_mapping_cons_append_none m' r' f RawConfig.get_libraries [] hf,
    load_mapping_cons_append_none m' r' f RawConfig.get_run [] hf]

/-! ## Example resolution sessions used by witnesses and counterexamples -/

/-- The identity interpolation (an environment without `${…}` references). -/
def idInterp : String → String := fun s => s

/-- A concrete library description. -/
def exDescA : Desc := [("version", "0.4")]

/-- A main manifest file defining only a non-empty `libraries` section. -/
def exFileA : KraftFile :=
  KraftFile.mk (some "kraft.yaml")
    (some (RawConfig.mk none none none none none (some [("lib1", exDescA)]) none))

/-- A later manifest file defining a different non-empty `libraries`
section. -/
def exFileB : KraftFile :=
  KraftFile.mk (some "kraft.override.yaml")
    (some (RawConfig.mk none none none none none
      (some [("lib2", [("version", "2.0")])]) none))

/-- A later manifest file that parses to a document with no recognised
keys (every section empty). -/
def exFileEmptySections : KraftFile :=
  KraftFile.mk (some "kraft.override.yaml") (some RawConfig.empty)

/-- A manifest file whose YAML parses to `None` (an empty document). -/
def exFileNoneDoc : KraftFile := KraftFile.mk (some "kraft.yaml") none

/-- Processed form of `exFileA` under identity interpolation. -/
def exFileA' : KraftFile :=
  KraftFile.mk (some "kraft.yaml")
    (some (RawConfig.mk none (some "") (some []) (some []) (some [])
      (some [("lib1", exDescA)]) (some [])))

/-- Processed form of `exFileB` under identity interpolation. -/
def exFileB' : KraftFile :=
  KraftFile.mk (some "kraft.override.yaml")
    (some (RawConfig.mk none (some "") (some []) (some []) (some [])
      (some [("lib2", [("version", "2.0")])]) (some [])))

/-- Processed form of `exFileEmptySections`. -/
def exFileEmptySections' : KraftFile :=
  KraftFile.mk (some "kraft.override.yaml")
    (some (RawConfig.mk none (some "") (some []) (some []) (some [])
      (some []) (some [])))

/-- Session for the C1 counterexample: a populated `libraries` section in
the first file, then a file defining nothing. -/
def exDetailsShadow : ConfigDetails :=
  ConfigDetails.mk "/app" [exFileA, exFileEmptySections] []

/-- Session with two populated `libraries` sections. -/
def exDetailsAB : ConfigDetails := ConfigDetails.mk "/app" [exFileA, exFileB] []

/-- The resolved configuration of `exDetailsAB`. -/
def exConfigAB : Config :=
  Config.mk .latest "app" [] [] [] [("lib2", [("version", "2.0")])] []

/-- Session whose working directory basename normalizes to the empty
string. -/
def exDetailsBang : ConfigDetails :=
  ConfigDetails.mk "/tmp/!!!" [exFileEmptySections] []

/-- Session whose working directory basename is `My App!!`. -/
def exDetailsMyApp : ConfigDetails :=
  ConfigDetails.mk "/home/My App!!" [exFileEmptySections] []

/-- The resolved configuration of `exDetailsMyApp`. -/
def exConfigMyApp : Config := Config.mk .latest "myapp" [] [] [] [] []

/-- Session whose main file parses to `None` while the later file is
valid. -/
def exDetailsNoneMain : ConfigDetails :=
  ConfigDetails.mk "/app" [exFileNoneDoc, exFileB] []

/-! ## Claim theorems: the configuration pipeline -/

/-- C1 counterexample.  The claim says each merged section equals the value
of the last file that defines it *non-emptily*; but with file A defining
`libraries` non-emptily followed by file B whose parsed document defines no
sections, the resolution succeeds with `Config.libraries = {}` — file B's
empty section value replaced A's populated one, although A is the last file
defining the section non-emptily (its processed value, the second conjunct,
is non-empty). -/
theorem load_config_last_nonempty_cex :
    (load_config idInterp allOk exDetailsShadow).map Config.libraries = .ok []
    ∧ (processFiles idInterp allOk exDetailsShadow.config_files).map
        (fun l => l.map (fun f => (f.config.getD RawConfig.empty).get_libraries)) =
      .ok [[("lib1", exDescA)], []]
    ∧ ([("lib1", exDescA)] : CompMap) ≠ [] :=
  ⟨rfl, rfl, by decide⟩

/-- C1 amended.  For every successful resolution, each merged section
equals the section value of the *last file in the sequence whose parsed
content is not `None`* (empty or not — whole-section replacement happens
regardless of emptiness, with the empty mapping when no file contributes);
for the `name` section this holds whenever that merged value is non-empty
(an empty merged name falls back to project-name defaulting instead).  The
spec's two-file instance (A then B, B's `libraries` non-empty) still holds:
B is then the last non-`None` file. -/
theorem load_config_section_replacement (interp : String → String)
    (vd : Validators) (details : ConfigDetails) (processed : List KraftFile)
    (cfg : Config)
    (hp : processFiles interp vd details.config_files = .ok processed)
    (h : load_config interp vd details = .ok cfg) :
    cfg.unikraft = lastSection processed RawConfig.get_unikraft []
    ∧ cfg.architectures = lastSection processed RawConfig.get_architectures []
    ∧ cfg.platforms = lastSection processed RawConfig.get_platforms []
    ∧ cfg.libraries = lastSection processed RawConfig.get_libraries []
    ∧ cfg.runner = lastSection processed RawConfig.get_run []
    ∧ (lastSection processed RawConfig.get_name "" ≠ "" →
      cfg.name = lastSection processed RawConfig.get_name "") := by
  rcases load_config_ok_elim interp vd details cfg h with ⟨processed', hp', hm⟩
  rw [hp] at hp'
  injection hp' with hpe
  subst hpe
  rcases merge_config_ok_elim details processed cfg hm with
    ⟨main, rest, sv, hpr, hv, hcfg⟩
  subst hcfg
  refine ⟨load_mapping_eq_lastSection RawConfig.get_unikraft processed [],
    load_mapping_eq_lastSection RawConfig.get_architectures processed [],
    load_mapping_eq_lastSection RawConfig.get_platforms processed [],
    load_mapping_eq_lastSection RawConfig.get_libraries processed [],
    load_mapping_eq_lastSection RawConfig.get_run processed [], ?_⟩
  intro hne
  show (if load_mapping processed RawConfig.get_name "" = "" then
      get_project_name details.working_dir none
        (envLookup details.environment "KRAFT_PROJECT_NAME")
    else load_mapping processed RawConfig.get_name "") =
    lastSection processed RawConfig.get_name ""
  rw [load_mapping_eq_lastSection RawConfig.get_name processed ""]
  rw [if_neg hne]

/-- Witness for C1's amended statement on the two-file session with both
`libraries` populated: the merged `libraries` is the last (second) file's
processed section value. -/
theorem load_config_section_replacement_witness :
    exConfigAB.libraries = lastSection [exFileA', exFileB'] RawConfig.get_libraries [] :=
  (load_config_section_replacement idInterp allOk exDetailsAB
    [exFileA', exFileB'] exConfigAB rfl rfl).2.2.2.1

/-- C4 counterexample.  The claim says that when the normalized working
directory basename is empty the resolved name is the literal `"default"`;
but for basename `"!!!"` (which normalizes to the empty string) the code
checks the *raw* basename, which is non-empty, and returns the normalized
value — so resolution yields the empty name, not `"default"`. -/
theorem project_name_default_cex :
    normalize_name (basename exDetailsBang.working_dir) = ""
    ∧ (load_config idInterp allOk exDetailsBang).map Config.name = .ok ""
    ∧ ("" : String) ≠ "default" :=
  ⟨rfl, rfl, by decide⟩

/-- C4 amended.  When the merged name is empty and the environment provides
no (truthy) project name, the resolved name is the working directory's
basename lower-cased with every character outside `[a-z0-9_-]` removed
whenever the *raw* basename is non-empty, and the literal `"default"` only
when the raw basename itself is empty (a non-empty basename that normalizes
to the empty string yields the empty name, not `"default"`). -/
theorem load_config_name_defaulting (interp : String → String) (vd : Validators)
    (details : ConfigDetails) (processed : List KraftFile) (cfg : Config)
    (hp : processFiles interp vd details.config_files = .ok processed)
    (h : load_config interp vd details = .ok cfg)
    (hname : load_mapping processed RawConfig.get_name "" = "")
    (henv : ∀ s, envLookup details.environment "KRAFT_PROJECT_NAME" = some s → s = "") :
    cfg.name = (if basename details.working_dir ≠ "" then
      normalize_name (basename details.working_dir) else "default") := by
  rcases load_config_ok_elim interp vd details cfg h with ⟨processed', hp', hm⟩
  rw [hp] at hp'
  injection hp' with hpe
  subst hpe
  rcases merge_config_ok_elim details processed cfg hm with
    ⟨main, rest, sv, hpr, hv, hcfg⟩
  subst hcfg
  show (if load_mapping processed RawConfig.get_name "" = "" then
      get_project_name details.working_dir none
        (envLookup details.environment "KRAFT_PROJECT_NAME")
    else load_mapping processed RawConfig.get_name "") = _
  rw [if_pos hname]
  unfold get_project_name
  cases he : envLookup details.environment "KRAFT_PROJECT_NAME" with
  | none => rfl
  | some s =>
    have hs := henv s he
    subst hs
    simp [pyOr]

/-- Witness for C4's amended statement: with working directory
`/home/My App!!`, an empty merged name and an empty environment, the
resolved name is `myapp`. -/
theorem load_config_name_defaulting_witness :
    exConfigMyApp.name = (if basename exDetailsMyApp.working_dir ≠ "" then
      normalize_name (basename exDetailsMyApp.working_dir) else "default")
    ∧ (if basename exDetailsMyApp.working_dir ≠ "" then
      normalize_name (basename exDetailsMyApp.working_dir) else "default") = "myapp" :=
  ⟨load_config_name_defaulting idInterp allOk exDetailsMyApp
      [exFileEmptySections'] exConfigMyApp rfl rfl rfl
      (fun s hs => Option.noConfusion hs),
    by decide⟩

/-- C8.  A file whose parsed content lacks the `specification` field
resolves to the system's latest known specification — and so does
`Config.specification` when the main file lacks the field; a present field
is accepted exactly when its string form matches `^[0-9]+(\.[0-9]+)?$`
(`"2"` and `"2.0"` match, `"abc"` and `"2.x"` do not), failing otherwise
with the invalid-specification error. -/
theorem kraftfile_specification_version :
    (∀ (f : KraftFile) (c : RawConfig), f.config = some c →
      c.specification = none → f.version = .ok KRAFT_SPEC_LATEST)
    ∧ (∀ (f : KraftFile) (c : RawConfig) (v : String), f.config = some c →
      c.specification = some v →
      f.version = (if matchesSpecPattern v then .ok (.declared v)
        else .error (.specificationVersion v f.filename)))
    ∧ (matchesSpecPattern "2" = true ∧ matchesSpecPattern "2.0" = true
      ∧ matchesSpecPattern "abc" = false ∧ matchesSpecPattern "2.x" = false)
    ∧ (∀ (interp : String → String) (vd : Validators) (details : ConfigDetails)
      (cfg : Config) (m0 : KraftFile) (r0 : List KraftFile) (c0 : RawConfig),
      details.config_files = m0 :: r0 → m0.config = some c0 →
      c0.specification = none → load_config interp vd details = .ok cfg →
      cfg.specification = KRAFT_SPEC_LATEST) := by
  refine ⟨?_, ?_, ⟨by decide, by decide, by decide, by decide⟩, ?_⟩
  · intro f c hc hs
    simp [KraftFile.version, hc, hs]
  · intro f c v hc hs
    simp only [KraftFile.version, hc, hs]
  · intro interp vd details cfg m0 r0 c0 hcf hmc hspec hl
    rcases load_config_ok_elim interp vd details cfg hl with ⟨processed, hp, hm⟩
    rw [hcf] at hp
    rcases processFiles_cons_elim interp vd m0 r0 processed hp with
      ⟨m', r', hpe, hpm, hpr0⟩
    rcases process_config_file_spec_preserved interp vd true m0 c0 m' hmc hpm with
      ⟨c', hc', hcs⟩
    rcases merge_config_ok_elim details processed cfg hm with
      ⟨main, rest, sv, hpr, hv, hcfg⟩
    rw [hpe] at hpr
    injection hpr with hm1 hm2
    subst hm1
    rw [hspec] at hcs
    have hver : m'.version = .ok KRAFT_SPEC_LATEST := by
      simp [KraftFile.version, hc', hcs]
    rw [hver] at hv
    injection hv with hsv
    subst hcfg
    exact hsv.symm

/-- Witness for C8: an absent field resolves to the latest specification,
and the field `"2.x"` is rejected with the invalid-specification error. -/
theorem kraftfile_specification_version_witness :
    KraftFile.version (KraftFile.mk (some "kraft.yaml") (some RawConfig.empty)) =
      .ok KRAFT_SPEC_LATEST
    ∧ KraftFile.version (KraftFile.mk (some "kraft.yaml")
        (some (RawConfig.mk (some "2.x") none none none none none none))) =
      .error (.specificationVersion "2.x" (some "kraft.yaml")) :=
  ⟨kraftfile_specification_version.1 _ RawConfig.empty rfl rfl,
    by
      rw [kraftfile_specification_version.2.1 _
        (RawConfig.mk (some "2.x") none none none none none none) "2.x" rfl rfl]
      rfl⟩

/-- C9.  `find_candidates_in_parent_dirs` is a total function (the
embedding realizes the upward recursion structurally on the path's
components, whose termination condition — the parent resolving to the same
path — is reaching the root), and when no accepted filename exists in the
starting directory or any of its ancestors up to the root, discovery fails
with the manifest-not-found error and returns no result. -/
theorem discovery_not_found (fs : List String → String → Bool)
    (filenames : List String) (D : List String)
    (h : ∀ p : List String, p <+: D → ∀ fn ∈ filenames, fs p fn = false) :
    get_default_config_files fs filenames D = .error (.kraftFileNotFound filenames) := by
  have haux : find_candidates_aux fs filenames D.reverse = ([], []) := by
    refine find_candidates_aux_none fs filenames D.reverse ?_
    intro p hp fn hfn
    refine h p ?_ fn hfn
    rw [List.reverse_reverse] at hp
    exact hp
  unfold get_default_config_files find_candidates_in_parent_dirs
  rw [haux]

/-- Witness for C9: a filesystem with no files at all fails discovery from
`/home/user` with the manifest-not-found error. -/
theorem discovery_not_found_witness :
    get_default_config_files (fun _ _ => false) ["kraft.yaml", "kraft.yml"]
      ["", "home", "user"] =
      .error (.kraftFileNotFound ["kraft.yaml", "kraft.yml"]) :=
  discovery_not_found (fun _ _ => false) ["kraft.yaml", "kraft.yml"]
    ["", "home", "user"] (fun _ _ _ _ => rfl)

/-- C10.  When the first (main) file's parsed content is `None`, the
resolution fails with the unreadable-manifest error carrying the main
file's name, even when every later file processes successfully; a file with
`None` content is passed through processing unchanged; and appending such
an empty file to a non-empty session leaves the resolution result
unchanged — it does not abort the pipeline. -/
theorem load_config_main_file_empty :
    (∀ (interp : String → String) (vd : Validators) (details : ConfigDetails)
      (main : KraftFile) (rest rest' : List KraftFile),
      details.config_files = main :: rest → main.config = none →
      processFiles interp vd rest = .ok rest' →
      load_config interp vd details = .error (.cannotReadKraftfile main.filename))
    ∧ (∀ (interp : String → String) (vd : Validators) (f : KraftFile),
      f.config = none → process_config_file interp vd true f = .ok f)
    ∧ (∀ (interp : String → String) (vd : Validators) (details : ConfigDetails)
      (f : KraftFile), details.config_files ≠ [] → f.config = none →
      load_config interp vd (ConfigDetails.mk details.working_dir
        (details.config_files ++ [f]) details.environment) =
      load_config interp vd details) := by
  have hpass : ∀ (interp : String → String) (vd : Validators) (f : KraftFile),
      f.config = none → process_config_file interp vd true f = .ok f := by
    intro interp vd f hf
    simp [process_config_file, hf]
  refine ⟨?_, hpass, ?_⟩
  · intro interp vd details main rest rest' hcf hmc hrest
    unfold load_config
    rw [hcf]
    simp only [processFiles, hpass interp vd main hmc, hrest]
    simp [merge_config, hmc]
  · intro interp vd details f hne hf
    unfold load_config
    show (match processFiles interp vd (details.config_files ++ [f]) with
        | .error e => (.error e : Except KraftErr Config)
        | .ok processed => merge_config (ConfigDetails.mk details.working_dir
            (details.config_files ++ [f]) details.environment) processed) =
      (match processFiles interp vd details.config_files with
        | .error e => .error e
        | .ok processed => merge_config details processed)
    rw [processFiles_append]
    cases hcf : details.config_files with
    | nil => exact absurd hcf hne
    | cons m r =>
      cases hl : processFiles interp vd (m :: r) with
      | error e => rfl
      | ok l' =>
        have h1 : processFiles interp vd [f] = .ok [f] := by
          simp [processFiles, hpass interp vd f hf]
        simp only [h1]
        rcases processFiles_cons_elim interp vd m r l' hl with ⟨m', r', hll, hpm, hpr⟩
        subst hll
        rw [show (m' :: r') ++ [f] = m' :: (r' ++ [f]) from List.cons_append m' r' [f]]
        rw [merge_config_cons_append_none _ m' r' f hf]
        rfl

/-- Witness for C10: a session whose main file parses to `None` fails with
the unreadable-manifest error although its second file is valid, and
appending a `None`-content file to a one-file session does not change the
resolution result. -/
theorem load_config_main_file_empty_witness :
    load_config idInterp allOk exDetailsNoneMain =
      .error (.cannotReadKraftfile (some "kraft.yaml"))
    ∧ load_config idInterp allOk (ConfigDetails.mk "/app"
        ([exFileA] ++ [exFileNoneDoc]) []) =
      load_config idInterp allOk (ConfigDetails.mk "/app" [exFileA] []) :=
  ⟨load_config_main_file_empty.1 idInterp allOk exDetailsNoneMain
      exFileNoneDoc [exFileB] [exFileB'] rfl rfl rfl,
    load_config_main_file_empty.2.2 idInterp allOk
      (ConfigDetails.mk "/app" [exFileA] []) exFileNoneDoc
      (fun hh => List.noConfusion hh) rfl⟩
